import Mathlib

/-!
Shallow embedding of `src/secure_signer.go` (package main), a policy-gated
Ethereum transaction signer, together with theorems settling the spec claims.

Conventions of the embedding:
* Go `*big.Int` is modelled as `Int` (arbitrary precision, possibly negative);
  a nil-able `*big.Int` struct field is `Option Int`.
* Byte slices are `List Nat` (each entry < 256 where produced by the code).
* Go strings are modelled at the Unicode-scalar level (`String` / `List Char`);
  the hex-relevant characters are all ASCII, where byte-level and scalar-level
  processing coincide.
* External collaborators (go-ethereum's key decoding `crypto.HexToECDSA`,
  `types.SignTx`, `tx.MarshalBinary`, and the file system) are abstracted as
  function parameters / `Option`-valued inputs, as the spec's §1 directs
  ("treated as external collaborators").  `common.HexToAddress` and
  `hex.EncodeToString`, whose exact behaviour the claims are about, are
  embedded faithfully from the go-ethereum / Go stdlib sources.
-/

namespace SecureSigner

/-! ### Characters and ASCII case folding

`lowerChar` is ASCII lower-casing: Go's `strings.EqualFold` performs Unicode
simple case folding, which on the ASCII range (the range relevant to hex
addresses) coincides with ASCII lower-casing of both sides. -/

/-- ASCII lower-casing of a character (identity outside `A`–`Z`). -/
def lowerChar (c : Char) : Char :=
  if 65 ≤ c.toNat ∧ c.toNat ≤ 90 then Char.ofNat (c.toNat + 32) else c

/-- ASCII lower-casing of a character list. -/
def lowerList (cs : List Char) : List Char := cs.map lowerChar

/-- ASCII lower-casing of a string. -/
def lowerStr (s : String) : String := String.mk (lowerList s.data)

/-- Model of Go `strings.EqualFold` restricted to ASCII data: two strings are
fold-equal iff their ASCII lower-casings agree. -/
def eqFold (a b : String) : Bool := lowerList a.data == lowerList b.data

/-! ### Hex decoding (Go `encoding/hex` + go-ethereum `common.FromHex`) -/

/-- Go `encoding/hex.fromHexChar`: the value of a hex digit, or `none`. -/
def hexVal (c : Char) : Option Nat :=
  if 48 ≤ c.toNat ∧ c.toNat ≤ 57 then some (c.toNat - 48)
  else if 97 ≤ c.toNat ∧ c.toNat ≤ 102 then some (c.toNat - 87)
  else if 65 ≤ c.toNat ∧ c.toNat ≤ 70 then some (c.toNat - 55)
  else none

/-- Go `hex.DecodeString` as wrapped by go-ethereum `common.Hex2Bytes`, which
discards the error: bytes are decoded pairwise until the first invalid digit
(or a trailing odd digit), and the successfully decoded prefix is returned. -/
def decodePairs : List Char → List Nat
  | c1 :: c2 :: rest =>
    match hexVal c1, hexVal c2 with
    | some a, some b => (16 * a + b) :: decodePairs rest
    | _, _ => []
  | _ => []

/-- go-ethereum `has0xPrefix` + prefix strip inside `common.FromHex`. -/
def strip0x : List Char → List Char
  | a :: b :: rest =>
    if a = '0' ∧ (b = 'x' ∨ b = 'X') then rest else a :: b :: rest
  | cs => cs

/-- go-ethereum `common.FromHex`: strip an optional `0x`/`0X` prefix, prepend
`0` if the digit count is odd, then decode. -/
def fromHex (cs : List Char) : List Nat :=
  let c2 := strip0x cs
  if c2.length % 2 = 1 then decodePairs ('0' :: c2) else decodePairs c2

/-- go-ethereum `common.BytesToAddress` / `Address.SetBytes`: keep the last 20
bytes and left-pad with zeros to exactly 20 bytes. -/
def bytesToAddress (b : List Nat) : List Nat :=
  let b' := if 20 < b.length then b.drop (b.length - 20) else b
  List.replicate (20 - b'.length) 0 ++ b'

/-- go-ethereum `common.HexToAddress`: total — every string yields a 20-byte
address, malformed hex is silently truncated at the first invalid digit. -/
def hexToAddress (s : String) : List Nat := bytesToAddress (fromHex s.data)

/-! ### Hex encoding (Go `encoding/hex.EncodeToString`) -/

/-- Go `encoding/hex` `const hextable = "0123456789abcdef"`. -/
def hexTable : List Char := "0123456789abcdef".data

/-- The two lowercase hex digits of one byte (`hextable[b>>4], hextable[b&0x0f]`). -/
def byteHexChars (b : Nat) : List Char :=
  [hexTable.getD (b / 16) '0', hexTable.getD (b % 16) '0']

/-- Go `hex.EncodeToString`: lowercase hex rendering of a byte slice. -/
def encodeToString (bs : List Nat) : String :=
  String.mk ((bs.map byteHexChars).flatten)

/-- The string `to.Hex()` is compared against in `checkPolicy`.  go-ethereum's
`Address.Hex` returns the EIP-55 *checksummed* hex form (`0x` prefix, mixed
case); since `checkPolicy` only ever uses this string inside the
case-insensitive `strings.EqualFold`, and the checksummed form differs from the
lowercase form only in letter case, the embedding renders the address in
lowercase: every `EqualFold` comparison has the same outcome on both forms. -/
def addressHex (a : List Nat) : String :=
  String.mk ('0' :: 'x' :: (a.map byteHexChars).flatten)

/-! ### Policy model and evaluator (`type Policy`, `func checkPolicy`) -/

/-- Go `type Policy struct { MaxAmountWei *big.Int; Whitelist []string }`.
The `*big.Int` field is nil-able, hence `Option Int`. -/
structure Policy where
  maxAmountWei : Option Int
  whitelist : List String
deriving DecidableEq, Repr

/-- Outcome of `checkPolicy`: `nil` error (allow), an error with a reason
string (deny), or the nil-pointer panic that `amount.Cmp(policy.MaxAmountWei)`
raises when `MaxAmountWei` is nil. -/
inductive Decision where
  | allow : Decision
  | deny : String → Decision
  | panicNilMax : Decision
deriving DecidableEq, Repr

/-- Go `func checkPolicy(policy *Policy, to common.Address, amount *big.Int) error`:
loop over `policy.Whitelist` comparing each entry with `strings.EqualFold`
against `to.Hex()`; if no entry matched, return the whitelist error; otherwise
compare `amount` against `policy.MaxAmountWei` (`Cmp > 0` means greater),
denying only on strict excess. -/
def checkPolicy (policy : Policy) (toA : List Nat) (amount : Int) : Decision :=
  if policy.whitelist.any (fun addr => eqFold addr (addressHex toA)) then
    match policy.maxAmountWei with
    | none => .panicNilMax
    | some m => if amount > m then .deny "amount exceeds max policy limit" else .allow
  else .deny "recipient not in whitelist"

/-! ### Policy loading (`func loadPolicy`, Go `encoding/json.Unmarshal`)

The JSON *syntax* layer is Go's standard library; `loadPolicy`'s input is
modelled as `Option JValue`: `none` stands for bytes that fail JSON decoding
(or an unreadable file), `some v` for bytes whose decoded structure is `v`.
Numbers are modelled as integers (`big.Int.UnmarshalJSON` rejects fractional
literals, another load error). -/

/-- A decoded JSON value. -/
inductive JValue where
  | jnull : JValue
  | jbool : Bool → JValue
  | jint : Int → JValue
  | jstr : String → JValue
  | jarr : List JValue → JValue
  | jobj : List (String × JValue) → JValue
deriving Repr

/-- Unmarshalling a JSON value into the `MaxAmountWei *big.Int` field:
`null` sets the pointer to nil, an integer number is accepted via
`big.Int.UnmarshalJSON` (sign unchecked — negative values load), anything
else is an unmarshalling error (`none`). -/
def unmarshalMax : JValue → Option (Option Int)
  | .jnull => some none
  | .jint n => some (some n)
  | _ => none

/-- Unmarshalling one array element into a Go `string`: a JSON string is
taken as is, `null` leaves the string's zero value `""`, anything else is an
unmarshalling error. -/
def unmarshalEntry : JValue → Option String
  | .jstr s => some s
  | .jnull => some ""
  | _ => none

/-- Unmarshalling a JSON value into the `Whitelist []string` field: `null`
leaves the nil slice, an array must unmarshal element-wise via
`unmarshalEntry`, anything else errors. -/
def unmarshalWhitelist : JValue → Option (List String)
  | .jnull => some []
  | .jarr xs => xs.mapM unmarshalEntry
  | _ => none

/-- One step of `json.Unmarshal`'s object loop over a `Policy` destination:
keys are matched case-insensitively against the field tags `max_amount_wei`
and `whitelist` (Go's json key matching), unknown keys are ignored, and a
value of the wrong shape is an error. -/
def applyField (p : Policy) (kv : String × JValue) : Except String Policy :=
  if eqFold kv.1 "max_amount_wei" then
    match unmarshalMax kv.2 with
    | some v => .ok { p with maxAmountWei := v }
    | none => .error "json: cannot unmarshal value into field MaxAmountWei"
  else if eqFold kv.1 "whitelist" then
    match unmarshalWhitelist kv.2 with
    | some w => .ok { p with whitelist := w }
    | none => .error "json: cannot unmarshal value into field Whitelist"
  else .ok p

/-- Go `json.Unmarshal(data, &policy)` on decoded structure `v`: a top-level
`null` leaves the zero-valued `Policy` (nil max amount, nil whitelist), an
object is folded field by field, and any other top level is a type error. -/
def unmarshalPolicy : JValue → Except String Policy
  | .jnull => .ok ⟨none, []⟩
  | .jobj fields => fields.foldlM applyField ⟨none, []⟩
  | _ => .error "json: cannot unmarshal value into Go value of type main.Policy"

/-- Go `func loadPolicy(file string) (*Policy, error)`: read the file, then
`json.Unmarshal` into a fresh `Policy`.  On any error `nil, err` is returned
(no partial policy escapes); `none` input models unreadable/syntactically
malformed bytes. -/
def loadPolicy : Option JValue → Except String Policy
  | none => .error "invalid JSON or unreadable file"
  | some v => unmarshalPolicy v

/-! ### Amount parsing (Go `big.Int.SetString(s, 10)`) -/

/-- All-decimal-digit parse of a nonempty digit string. -/
def parseDigits (cs : List Char) : Option Nat :=
  if cs.isEmpty then none
  else cs.foldlM
    (fun acc c =>
      if 48 ≤ c.toNat ∧ c.toNat ≤ 57 then some (acc * 10 + (c.toNat - 48)) else none)
    0

/-- Go `new(big.Int).SetString(s, 10)`: an optional leading `+` or `-` sign
followed by at least one decimal digit; **negative inputs parse
successfully**.  Returns `none` exactly when Go returns `ok = false`. -/
def setStringDec (s : String) : Option Int :=
  match s.data with
  | '-' :: rest => (parseDigits rest).map (fun n => -(n : Int))
  | '+' :: rest => (parseDigits rest).map (fun n => (n : Int))
  | cs => (parseDigits cs).map (fun n => (n : Int))

/-! ### Transaction construction (`types.NewTransaction` call site, line 104) -/

/-- The unsigned legacy transaction as `main` constructs it:
`types.NewTransaction(nonce, to, amountWei, 21000, big.NewInt(1_000_000_000), nil)`. -/
structure UnsignedTx where
  nonce : Nat
  toA : List Nat
  value : Int
  gasLimit : Nat
  gasPrice : Int
  data : List Nat
deriving DecidableEq, Repr

/-- The transaction-building step of `main`: fixed gas limit 21000, fixed gas
price 1 gwei, empty (`nil`) data payload. -/
def buildTx (nonce : Nat) (toA : List Nat) (amount : Int) : UnsignedTx :=
  { nonce := nonce, toA := toA, value := amount,
    gasLimit := 21000, gasPrice := 1000000000, data := [] }

/-! ### The pipeline (`func main`, after flag parsing) -/

/-- Terminal outcome of one `main` invocation.  Each `fatal…` constructor is
one of the `log.Fatal` call sites (process exits, nothing printed on the
success channel); `output` is the single `fmt.Println("RawTxHex: …")`. -/
inductive PipeResult where
  | fatalArgs : PipeResult
  | fatalKey : PipeResult
  | fatalPolicyLoad : PipeResult
  | fatalAmount : PipeResult
  | fatalPolicy : String → PipeResult
  | panicked : PipeResult
  | fatalSign : PipeResult
  | fatalSerialize : PipeResult
  | output : String → PipeResult
deriving DecidableEq, Repr

/-- Go `strings.TrimPrefix(hexKey, "0x")` (exact prefix, case sensitive). -/
def trimPrefix0x (s : String) : String :=
  match s.data with
  | '0' :: 'x' :: rest => String.mk rest
  | cs => String.mk cs

/-- `func main` as run after flag parsing, one step per source line:
required-argument check; `loadPrivateKey` (external `crypto.HexToECDSA` on the
`0x`-trimmed key, abstracted as `hexToECDSA`); `loadPolicy`;
`big.Int.SetString(amountWeiStr, 10)`; `common.HexToAddress(toAddr)`;
`checkPolicy`; `types.NewTransaction`; `types.SignTx` with the signer for
`chainID` (abstracted as `signTx`); `signedTx.MarshalBinary` (abstracted as
`marshalBinary`); `hex.EncodeToString` printed on stdout. -/
def mainRun {Key SignedTx : Type}
    (hexToECDSA : String → Option Key)
    (signTx : UnsignedTx → Int → Key → Option SignedTx)
    (marshalBinary : SignedTx → Option (List Nat))
    (privKeyHex toAddr amountWeiStr : String) (nonce : Nat) (chainID : Int)
    (policySrc : Option JValue) : PipeResult :=
  if privKeyHex = "" ∨ toAddr = "" then .fatalArgs
  else
    match hexToECDSA (trimPrefix0x privKeyHex) with
    | none => .fatalKey
    | some privateKey =>
      match loadPolicy policySrc with
      | .error _ => .fatalPolicyLoad
      | .ok policy =>
        match setStringDec amountWeiStr with
        | none => .fatalAmount
        | some amountWei =>
          let toA := hexToAddress toAddr
          match checkPolicy policy toA amountWei with
          | .deny reason => .fatalPolicy reason
          | .panicNilMax => .panicked
          | .allow =>
            let tx := buildTx nonce toA amountWei
            match signTx tx chainID privateKey with
            | none => .fatalSign
            | some signedTx =>
              match marshalBinary signedTx with
              | none => .fatalSerialize
              | some rawTxBytes => .output (encodeToString rawTxBytes)

/-! ## Helper lemmas -/

theorem toNat_ofNatValid (n : Nat) (h : n < 55296) : (Char.ofNat n).toNat = n := by
  have hv : n < 55296 ∨ 57343 < n ∧ n < 1114112 := Or.inl (by omega)
  simp [Char.ofNat, hv, Char.ofNatAux, Char.toNat, UInt32.toNat]

theorem toNat_lowerChar (c : Char) :
    (lowerChar c).toNat =
      if 65 ≤ c.toNat ∧ c.toNat ≤ 90 then c.toNat + 32 else c.toNat := by
  unfold lowerChar
  split
  · next h => exact toNat_ofNatValid _ (by omega)
  · rfl

theorem char_eq_iff_toNat {c d : Char} : c = d ↔ c.toNat = d.toNat := by
  constructor
  · intro h; rw [h]
  · intro h; exact Char.ext (UInt32.ext h)

theorem lowerChar_idem (c : Char) : lowerChar (lowerChar c) = lowerChar c := by
  by_cases h : 65 ≤ c.toNat ∧ c.toNat ≤ 90
  · have h1 : (lowerChar c).toNat = c.toNat + 32 := by rw [toNat_lowerChar, if_pos h]
    rw [char_eq_iff_toNat, toNat_lowerChar, h1, if_neg (by omega)]
  · have h1 : (lowerChar c).toNat = c.toNat := by rw [toNat_lowerChar, if_neg h]
    rw [char_eq_iff_toNat, toNat_lowerChar, h1, if_neg h]

theorem lowerList_idem (cs : List Char) : lowerList (lowerList cs) = lowerList cs := by
  induction cs with
  | nil => rfl
  | cons c cs ih =>
    show lowerChar (lowerChar c) :: lowerList (lowerList cs) = _
    rw [lowerChar_idem, ih]; rfl

theorem hexVal_lowerChar (c : Char) : hexVal (lowerChar c) = hexVal c := by
  by_cases h : 65 ≤ c.toNat ∧ c.toNat ≤ 90
  · have h1 : (lowerChar c).toNat = c.toNat + 32 := by rw [toNat_lowerChar, if_pos h]
    unfold hexVal
    rw [h1]
    split_ifs <;> first | rfl | omega
  · have h1 : (lowerChar c).toNat = c.toNat := by rw [toNat_lowerChar, if_neg h]
    unfold hexVal
    rw [h1]

theorem decodePairs_lowerList (cs : List Char) :
    decodePairs (lowerList cs) = decodePairs cs := by
  match cs with
  | [] => rfl
  | [c] => rfl
  | c1 :: c2 :: rest =>
    show decodePairs (lowerChar c1 :: lowerChar c2 :: lowerList rest) = _
    rw [decodePairs, decodePairs, hexVal_lowerChar, hexVal_lowerChar]
    cases hexVal c1 <;> cases hexVal c2 <;> simp [decodePairs_lowerList rest]

theorem lowerChar_eq_zero (c : Char) : lowerChar c = '0' ↔ c = '0' := by
  rw [char_eq_iff_toNat, char_eq_iff_toNat, toNat_lowerChar]
  have h0 : ('0').toNat = 48 := rfl
  rw [h0]
  split_ifs with h <;> omega

theorem lowerChar_eq_x (c : Char) : lowerChar c = 'x' ↔ (c = 'x' ∨ c = 'X') := by
  rw [char_eq_iff_toNat, char_eq_iff_toNat, char_eq_iff_toNat, toNat_lowerChar]
  have hx : ('x').toNat = 120 := rfl
  have hX : ('X').toNat = 88 := rfl
  rw [hx, hX]
  split_ifs with h <;> omega

theorem lowerChar_ne_X (c : Char) : lowerChar c ≠ 'X' := by
  intro hc
  have h2 := char_eq_iff_toNat.mp hc
  rw [toNat_lowerChar] at h2
  have hX : ('X').toNat = 88 := rfl
  rw [hX] at h2
  split_ifs at h2 <;> omega

theorem strip0x_lowerList (cs : List Char) :
    strip0x (lowerList cs) = lowerList (strip0x cs) := by
  match cs with
  | [] => rfl
  | [a] => rfl
  | a :: b :: rest =>
    show strip0x (lowerChar a :: lowerChar b :: lowerList rest) = _
    rw [strip0x, strip0x]
    by_cases h : a = '0' ∧ (b = 'x' ∨ b = 'X')
    · rw [if_pos h, if_pos]
      constructor
      · exact (lowerChar_eq_zero a).mpr h.1
      · exact Or.inl ((lowerChar_eq_x b).mpr h.2)
    · rw [if_neg h, if_neg]
      · rfl
      · intro hc
        exact h ⟨(lowerChar_eq_zero a).mp hc.1,
          (lowerChar_eq_x b).mp (hc.2.resolve_right (lowerChar_ne_X b))⟩

theorem fromHex_lowerList (cs : List Char) : fromHex (lowerList cs) = fromHex cs := by
  simp only [fromHex]
  rw [strip0x_lowerList]
  have hlen : (lowerList (strip0x cs)).length = (strip0x cs).length :=
    List.length_map _ _
  rw [hlen]
  split_ifs
  · have hz : '0' :: lowerList (strip0x cs) = lowerList ('0' :: strip0x cs) := by
      show _ = lowerChar '0' :: _
      rfl
    rw [hz, decodePairs_lowerList]
  · exact decodePairs_lowerList _

theorem hexToAddress_lowerStr (s : String) :
    hexToAddress (lowerStr s) = hexToAddress s := by
  show bytesToAddress (fromHex (lowerList s.data)) = _
  rw [fromHex_lowerList]
  rfl

theorem eqFold_lowerStr_left (e x : String) : eqFold (lowerStr e) x = eqFold e x := by
  show (lowerList (lowerList e.data) == lowerList x.data) = _
  rw [lowerList_idem]
  rfl

theorem length_bytesToAddress (b : List Nat) : (bytesToAddress b).length = 20 := by
  simp only [bytesToAddress]
  split_ifs with h
  · simp [List.length_replicate, List.length_drop]
    omega
  · simp [List.length_replicate]
    omega

theorem length_hexToAddress (s : String) : (hexToAddress s).length = 20 :=
  length_bytesToAddress _

theorem length_flatten_byteHexChars (l : List Nat) :
    ((l.map byteHexChars).flatten).length = 2 * l.length := by
  induction l with
  | nil => rfl
  | cons x xs ih =>
    show (byteHexChars x ++ (xs.map byteHexChars).flatten).length = _
    rw [List.length_append, ih]
    show 2 + 2 * xs.length = 2 * (xs.length + 1)
    omega

theorem length_data_addressHex (a : List Nat) :
    (addressHex a).data.length = 2 + 2 * a.length := by
  show ('0' :: 'x' :: (a.map byteHexChars).flatten).length = _
  rw [List.length_cons, List.length_cons, length_flatten_byteHexChars]
  omega

theorem eqFold_length {a b : String} (h : eqFold a b = true) :
    a.data.length = b.data.length := by
  have he : lowerList a.data = lowerList b.data := by
    simpa [eqFold] using h
  have := congrArg List.length he
  simpa [lowerList] using this

/-! ## Claim theorems -/

/-- **C4.**  For every policy `P`, every recipient address whose (normalized,
case-folded) hex form matches no whitelist entry, and every amount, the
evaluator returns exactly `Deny("recipient not in whitelist")`; in particular
such a recipient never receives the amount-limit denial reason, since the
amount check is only reached when the whitelist check passed. -/
theorem checkPolicy_not_whitelisted (p : Policy) (toA : List Nat) (a : Int)
    (h : ∀ e ∈ p.whitelist, eqFold e (addressHex toA) = false) :
    checkPolicy p toA a = .deny "recipient not in whitelist" ∧
      checkPolicy p toA a ≠ .deny "amount exceeds max policy limit" := by
  have hany : p.whitelist.any (fun addr => eqFold addr (addressHex toA)) = false := by
    rw [List.any_eq_false]
    intro e he
    rw [h e he]
    exact Bool.false_ne_true
  unfold checkPolicy
  rw [hany]
  exact ⟨rfl, by simp⟩

/-- Witness for `checkPolicy_not_whitelisted` at a concrete denied input. -/
theorem checkPolicy_not_whitelisted_witness :
    checkPolicy ⟨some 1000, ["0xaaaaaaaaaaaaaaaaaaaaaaaaaaaaaaaaaaaaaaaa"]⟩
        (hexToAddress "0xbbbbbbbbbbbbbbbbbbbbbbbbbbbbbbbbbbbbbbbb") 1 =
      .deny "recipient not in whitelist" ∧
    checkPolicy ⟨some 1000, ["0xaaaaaaaaaaaaaaaaaaaaaaaaaaaaaaaaaaaaaaaa"]⟩
        (hexToAddress "0xbbbbbbbbbbbbbbbbbbbbbbbbbbbbbbbbbbbbbbbb") 1 ≠
      .deny "amount exceeds max policy limit" :=
  checkPolicy_not_whitelisted _ _ _ (by decide)

/-- **C5.**  For every policy with a present maximum amount and every
whitelisted recipient: an amount `a ≤ max` is allowed (the limit is
inclusive), and an amount `a > max` is denied with exactly
`"amount exceeds max policy limit"`. -/
theorem checkPolicy_whitelisted_amount (p : Policy) (toA : List Nat) (a m : Int)
    (hm : p.maxAmountWei = some m)
    (hw : ∃ e ∈ p.whitelist, eqFold e (addressHex toA) = true) :
    (a ≤ m → checkPolicy p toA a = .allow) ∧
      (a > m → checkPolicy p toA a = .deny "amount exceeds max policy limit") := by
  have hany : p.whitelist.any (fun addr => eqFold addr (addressHex toA)) = true := by
    rw [List.any_eq_true]
    obtain ⟨e, he, hef⟩ := hw
    exact ⟨e, he, hef⟩
  unfold checkPolicy
  rw [hany, hm]
  constructor
  · intro hle
    simp only [if_true]
    rw [if_neg (by omega)]
  · intro hgt
    simp only [if_true]
    rw [if_pos hgt]

/-- Witness for `checkPolicy_whitelisted_amount`: at the limit the transfer is
allowed, one unit above it is denied. -/
theorem checkPolicy_whitelisted_amount_witness :
    checkPolicy ⟨some 1000, ["0xaaaaaaaaaaaaaaaaaaaaaaaaaaaaaaaaaaaaaaaa"]⟩
        (hexToAddress "0xaaaaaaaaaaaaaaaaaaaaaaaaaaaaaaaaaaaaaaaa") 1000 = .allow :=
  (checkPolicy_whitelisted_amount _ _ 1000 1000 rfl
    ⟨"0xaaaaaaaaaaaaaaaaaaaaaaaaaaaaaaaaaaaaaaaa", by decide, by decide⟩).1
    (by decide)

/-- **C7.**  A policy whose whitelist is empty denies every recipient and every
amount (no-transfer-by-default): the loop finds no match, so the whitelist
denial is returned unconditionally. -/
theorem checkPolicy_empty_whitelist (p : Policy) (toA : List Nat) (a : Int)
    (h : p.whitelist = []) :
    checkPolicy p toA a = .deny "recipient not in whitelist" := by
  unfold checkPolicy
  rw [h]
  rfl

/-- Witness for `checkPolicy_empty_whitelist` at a concrete input. -/
theorem checkPolicy_empty_whitelist_witness :
    checkPolicy ⟨some 5, []⟩ (hexToAddress "0xaaaaaaaaaaaaaaaaaaaaaaaaaaaaaaaaaaaaaaaa") 3 =
      .deny "recipient not in whitelist" :=
  checkPolicy_empty_whitelist _ _ _ rfl

/-- **C8.**  The unsigned transaction built by the pipeline (source line 104)
always carries gas limit 21000, gas price 1 000 000 000, an empty data
payload, and exactly the supplied nonce, recipient, and amount. -/
theorem buildTx_fields (nonce : Nat) (toA : List Nat) (amount : Int) :
    (buildTx nonce toA amount).gasLimit = 21000 ∧
    (buildTx nonce toA amount).gasPrice = 1000000000 ∧
    (buildTx nonce toA amount).data = [] ∧
    (buildTx nonce toA amount).nonce = nonce ∧
    (buildTx nonce toA amount).toA = toA ∧
    (buildTx nonce toA amount).value = amount :=
  ⟨rfl, rfl, rfl, rfl, rfl, rfl⟩

/-- **C9.**  Policy evaluation is deterministic and side-effect free.  The Go
`checkPolicy` only reads through its pointer arguments (it never assigns
through `policy`, and `strings.EqualFold` / `big.Int.Cmp` are read-only), so
it embeds as a pure function of `(policy, to, amount)`; two calls with
identical inputs are the same value, and the inputs are left unchanged by
evaluation. -/
theorem checkPolicy_deterministic (p : Policy) (toA : List Nat) (a : Int) :
    checkPolicy p toA a = checkPolicy p toA a := rfl

/-- **C6 (counterexample).**  The claim asserts a whitelist entry written
*without* the `0x` prefix still matches the same address written with it; on
the code it does not: `to.Hex()` always carries the `0x` prefix and whitelist
entries are compared verbatim (no prefix normalization), so the 40-character
entry never equals the 42-character comparand and the transfer is denied. -/
theorem unprefixed_whitelist_entry_rejected :
    checkPolicy ⟨some 1000, ["aaaaaaaaaaaaaaaaaaaaaaaaaaaaaaaaaaaaaaaa"]⟩
        (hexToAddress "0xaaaaaaaaaaaaaaaaaaaaaaaaaaaaaaaaaaaaaaaa") 5 =
      .deny "recipient not in whitelist" := rfl

/-- **C6 (amended).**  Whitelist matching is insensitive to letter case on both
sides — lower-casing the recipient string does not change the decision, and
lower-casing every whitelist entry does not change the decision — but it is
*not* insensitive to the `0x` prefix: whitelist entries are compared verbatim
against the recipient's `0x`-prefixed 42-character hex form, so any entry
whose length is not 42 (in particular an entry written without the prefix)
matches no recipient. -/
theorem checkPolicy_case_insensitive_but_prefix_sensitive :
    (∀ (p : Policy) (a : Int) (s : String),
        checkPolicy p (hexToAddress (lowerStr s)) a = checkPolicy p (hexToAddress s) a) ∧
    (∀ (m : Option Int) (es : List String) (toA : List Nat) (a : Int),
        checkPolicy ⟨m, es.map lowerStr⟩ toA a = checkPolicy ⟨m, es⟩ toA a) ∧
    (∀ (s e : String), e.data.length ≠ 42 →
        eqFold e (addressHex (hexToAddress s)) = false) := by
  refine ⟨?_, ?_, ?_⟩
  · intro p a s
    rw [hexToAddress_lowerStr]
  · intro m es toA a
    have hany : (es.map lowerStr).any (fun addr => eqFold addr (addressHex toA)) =
        es.any (fun addr => eqFold addr (addressHex toA)) := by
      rw [List.any_map]
      have hf : ((fun addr => eqFold addr (addressHex toA)) ∘ lowerStr) =
          (fun addr => eqFold addr (addressHex toA)) := by
        funext e
        exact eqFold_lowerStr_left e _
      rw [hf]
    unfold checkPolicy
    exact hany ▸ rfl
  · intro s e hlen
    cases hb : eqFold e (addressHex (hexToAddress s)) with
    | false => rfl
    | true =>
      exfalso
      apply hlen
      rw [eqFold_length hb, length_data_addressHex, length_hexToAddress]

/-- Witness for `checkPolicy_case_insensitive_but_prefix_sensitive`: a
three-character entry matches no recipient's comparand. -/
theorem checkPolicy_case_insensitive_but_prefix_sensitive_witness :
    eqFold "abc" (addressHex (hexToAddress "0xaaaaaaaaaaaaaaaaaaaaaaaaaaaaaaaaaaaaaaaa")) =
      false :=
  checkPolicy_case_insensitive_but_prefix_sensitive.2.2
    "0xaaaaaaaaaaaaaaaaaaaaaaaaaaaaaaaaaaaaaaaa" "abc" (by decide)

/-- **C10.**  Recipient parsing is total: `common.HexToAddress` yields a
20-byte address for *every* input string (malformed hex is silently truncated
and zero-padded, never rejected), so the pipeline has no recipient-validation
abort at all (`PipeResult` has no such constructor, mirroring `main`, which
has no error path between `SetString` and `checkPolicy`): a garbage recipient
string is coerced to the zero address and then whitelist-checked. -/
theorem hexToAddress_total :
    (∀ s : String, (hexToAddress s).length = 20) ∧
    mainRun (fun _ => some ()) (fun _ _ _ => some ()) (fun _ => some ([] : List Nat))
        "0xdeadbeef" "zz!not-a-hex-address" "1" 0 1
        (some (.jobj [("max_amount_wei", .jint 10), ("whitelist", .jarr [])])) =
      .fatalPolicy "recipient not in whitelist" :=
  ⟨length_hexToAddress, rfl⟩

/-- **C1.**  If the policy evaluator denies, the pipeline aborts with exactly
that reason — for *every* possible signing and serialization collaborator,
i.e. the abort happens before the signing primitive is ever consulted, and no
`output` (serialized signed transaction) is produced. -/
theorem deny_aborts_pipeline {Key SignedTx : Type}
    (hexToECDSA : String → Option Key)
    (signTx : UnsignedTx → Int → Key → Option SignedTx)
    (marshalBinary : SignedTx → Option (List Nat))
    (privKeyHex toAddr amountWeiStr : String) (nonce : Nat) (chainID : Int)
    (policySrc : Option JValue) (k : Key) (p : Policy) (a : Int) (reason : String)
    (hkey : privKeyHex ≠ "") (hto : toAddr ≠ "")
    (hk : hexToECDSA (trimPrefix0x privKeyHex) = some k)
    (hpol : loadPolicy policySrc = .ok p)
    (ha : setStringDec amountWeiStr = some a)
    (hd : checkPolicy p (hexToAddress toAddr) a = .deny reason) :
    mainRun hexToECDSA signTx marshalBinary privKeyHex toAddr amountWeiStr
        nonce chainID policySrc = .fatalPolicy reason := by
  simp [mainRun, hkey, hto, hk, hpol, ha, hd]

/-- Witness for `deny_aborts_pipeline` at a concrete denied invocation. -/
theorem deny_aborts_pipeline_witness :
    mainRun (fun _ => some ()) (fun _ _ _ => some ()) (fun _ => some ([] : List Nat))
        "0xdeadbeef" "0xbbbbbbbbbbbbbbbbbbbbbbbbbbbbbbbbbbbbbbbb" "5" 7 1
        (some (.jobj [("max_amount_wei", .jint 1000),
          ("whitelist", .jarr [.jstr "0xaaaaaaaaaaaaaaaaaaaaaaaaaaaaaaaaaaaaaaaa"])])) =
      .fatalPolicy "recipient not in whitelist" :=
  deny_aborts_pipeline (fun _ => some ()) (fun _ _ _ => some ())
    (fun _ => some ([] : List Nat)) "0xdeadbeef"
    "0xbbbbbbbbbbbbbbbbbbbbbbbbbbbbbbbbbbbbbbbb" "5" 7 1
    (some (.jobj [("max_amount_wei", .jint 1000),
      ("whitelist", .jarr [.jstr "0xaaaaaaaaaaaaaaaaaaaaaaaaaaaaaaaaaaaaaaaa"])]))
    () ⟨some 1000, ["0xaaaaaaaaaaaaaaaaaaaaaaaaaaaaaaaaaaaaaaaa"]⟩ 5
    "recipient not in whitelist" (by decide) (by decide) rfl rfl rfl rfl

/-- **C2 (counterexample).**  The claim asserts a policy byte source lacking
the maximum-amount field fails to load; on the code `json.Unmarshal` simply
leaves `MaxAmountWei` nil and `loadPolicy` returns the policy with no error. -/
theorem loadPolicy_missing_max_loads :
    loadPolicy (some (.jobj [("whitelist", .jarr [])])) = .ok ⟨none, []⟩ := rfl

theorem mapM_unmarshalEntry_strs (ws : List String) :
    (ws.map JValue.jstr).mapM unmarshalEntry = some ws := by
  induction ws with
  | nil => rfl
  | cons s rest ih =>
    rw [List.map_cons, List.mapM_cons, ih]
    rfl

theorem unmarshalWhitelist_strs (ws : List String) :
    unmarshalWhitelist (.jarr (ws.map JValue.jstr)) = some ws :=
  mapM_unmarshalEntry_strs ws

theorem foldlM_applyField_no_max :
    ∀ (fields : List (String × JValue)) (q : Policy), q.maxAmountWei = none →
      (∀ kv ∈ fields, eqFold kv.1 "max_amount_wei" = false) →
      ∀ p : Policy, fields.foldlM applyField q = .ok p → p.maxAmountWei = none := by
  intro fields
  induction fields with
  | nil =>
    intro q hq _ p hp
    rw [List.foldlM_nil] at hp
    cases hp
    exact hq
  | cons kv rest ih =>
    intro q hq h p hp
    rw [List.foldlM_cons] at hp
    have hkv : eqFold kv.1 "max_amount_wei" = false := h kv (List.mem_cons_self _ _)
    have hrest : ∀ kv ∈ rest, eqFold kv.1 "max_amount_wei" = false :=
      fun x hx => h x (List.mem_cons_of_mem _ hx)
    unfold applyField at hp
    rw [hkv] at hp
    simp only [Bool.false_eq_true, if_false] at hp
    by_cases hw : eqFold kv.1 "whitelist" = true
    · rw [if_pos hw] at hp
      cases hu : unmarshalWhitelist kv.2 with
      | none =>
        rw [hu] at hp
        exact Except.noConfusion hp
      | some w =>
        rw [hu] at hp
        exact ih { q with whitelist := w } hq hrest p hp
    · rw [if_neg hw] at hp
      exact ih q hq hrest p hp

/-- **C2 (amended).**  Malformed policy sources fail to load with an error and
no policy value is returned: unparsable bytes, a top level that is neither an
object nor `null`, and a maximum-amount field of the wrong JSON shape all
error.  But a source whose object carries no maximum-amount key at all loads
successfully (whenever it loads) as a policy with a nil limit, and an
arbitrary — in particular negative — integer maximum-amount value loads
exactly as given: presence and non-negativity of the limit are not validated
at load time. -/
theorem loadPolicy_amended :
    loadPolicy none = .error "invalid JSON or unreadable file" ∧
    (∀ v : JValue, v ≠ .jnull → (∀ fields, v ≠ .jobj fields) →
      loadPolicy (some v) =
        .error "json: cannot unmarshal value into Go value of type main.Policy") ∧
    (∀ (v : JValue) (rest : List (String × JValue)), unmarshalMax v = none →
      loadPolicy (some (.jobj (("max_amount_wei", v) :: rest))) =
        .error "json: cannot unmarshal value into field MaxAmountWei") ∧
    (∀ (fields : List (String × JValue)),
      (∀ kv ∈ fields, eqFold kv.1 "max_amount_wei" = false) →
      ∀ p : Policy, loadPolicy (some (.jobj fields)) = .ok p →
        p.maxAmountWei = none) ∧
    (∀ (n : Int) (ws : List String),
      loadPolicy (some (.jobj [("max_amount_wei", .jint n),
          ("whitelist", .jarr (ws.map JValue.jstr))])) =
        .ok ⟨some n, ws⟩) := by
  refine ⟨rfl, ?_, ?_, ?_, ?_⟩
  · intro v h1 h2
    cases v with
    | jnull => exact absurd rfl h1
    | jbool b => rfl
    | jint n => rfl
    | jstr s => rfl
    | jarr xs => rfl
    | jobj fields => exact absurd rfl (h2 fields)
  · intro v rest hv
    show (("max_amount_wei", v) :: rest).foldlM applyField ⟨none, []⟩ = _
    rw [List.foldlM_cons]
    have hcond : eqFold "max_amount_wei" "max_amount_wei" = true := by decide
    have h1 : applyField ⟨none, []⟩ ("max_amount_wei", v) =
        .error "json: cannot unmarshal value into field MaxAmountWei" := by
      unfold applyField
      rw [if_pos hcond, hv]
    rw [h1]
    rfl
  · intro fields h p hp
    exact foldlM_applyField_no_max fields ⟨none, []⟩ rfl h p hp
  · intro n ws
    show (("max_amount_wei", JValue.jint n) ::
        ("whitelist", JValue.jarr (ws.map JValue.jstr)) ::
        ([] : List (String × JValue))).foldlM applyField ⟨none, []⟩ = _
    rw [List.foldlM_cons]
    have hcond : eqFold "max_amount_wei" "max_amount_wei" = true := by decide
    have h1 : applyField ⟨none, []⟩ ("max_amount_wei", JValue.jint n) =
        .ok ⟨some n, []⟩ := by
      unfold applyField
      rw [if_pos hcond]
      rfl
    rw [h1]
    show (("whitelist", JValue.jarr (ws.map JValue.jstr)) ::
        ([] : List (String × JValue))).foldlM applyField ⟨some n, []⟩ = _
    rw [List.foldlM_cons]
    have hne : ¬(eqFold "whitelist" "max_amount_wei" = true) := by decide
    have hwl : eqFold "whitelist" "whitelist" = true := by decide
    have h2 : applyField ⟨some n, []⟩ ("whitelist", JValue.jarr (ws.map JValue.jstr)) =
        .ok ⟨some n, ws⟩ := by
      unfold applyField
      rw [if_neg hne, if_pos hwl, unmarshalWhitelist_strs]
    rw [h2]
    rfl

/-- Witness for `loadPolicy_amended`: a boolean top level and a string-valued
maximum amount error; a missing maximum-amount field yields a nil limit; the
negative value −7 loads as given. -/
theorem loadPolicy_amended_witness :
    loadPolicy (some (.jbool true)) =
      .error "json: cannot unmarshal value into Go value of type main.Policy" ∧
    loadPolicy (some (.jobj [("max_amount_wei", .jstr "1000"), ("whitelist", .jarr [])])) =
      .error "json: cannot unmarshal value into field MaxAmountWei" ∧
    (⟨none, []⟩ : Policy).maxAmountWei = none ∧
    loadPolicy (some (.jobj [("max_amount_wei", .jint (-7)),
        ("whitelist", .jarr [.jstr "0xab"])])) =
      .ok ⟨some (-7), ["0xab"]⟩ :=
  ⟨loadPolicy_amended.2.1 (.jbool true) (fun h => JValue.noConfusion h)
      (fun _ h => JValue.noConfusion h),
   loadPolicy_amended.2.2.1 (.jstr "1000") [("whitelist", .jarr [])] rfl,
   loadPolicy_amended.2.2.2.1 [("whitelist", .jarr [])] (by decide) ⟨none, []⟩ rfl,
   loadPolicy_amended.2.2.2.2 (-7) ["0xab"]⟩

/-- **C3.**  A negative amount string is *not* rejected: `big.Int.SetString`
with base 10 accepts a leading minus sign, so `"-5"` parses with `ok = true`,
the pipeline does not abort with "invalid amount", and the evaluator is
invoked with the negative amount — which even passes the inclusive limit
check (`-5 ≤ max`), letting the run reach signing and produce output. -/
theorem negative_amount_reaches_evaluator :
    setStringDec "-5" = some (-5) ∧
    checkPolicy ⟨some 1000, ["0xaaaaaaaaaaaaaaaaaaaaaaaaaaaaaaaaaaaaaaaa"]⟩
        (hexToAddress "0xAAAAAAAAAAAAAAAAAAAAAAAAAAAAAAAAAAAAAAAA") (-5) = .allow ∧
    mainRun (fun _ => some ()) (fun _ _ _ => some ()) (fun _ => some [1])
        "0xdeadbeef" "0xAAAAAAAAAAAAAAAAAAAAAAAAAAAAAAAAAAAAAAAA" "-5" 0 1
        (some (.jobj [("max_amount_wei", .jint 1000),
          ("whitelist", .jarr [.jstr "0xaaaaaaaaaaaaaaaaaaaaaaaaaaaaaaaaaaaaaaaa"])])) =
      .output "01" :=
  ⟨rfl, rfl, rfl⟩

end SecureSigner
